import Mathlib

/-!
Verification of the catlin rule-based validation engine.

This file gives a shallow embedding, in Lean 4, of the two source files of
the repository:

* `src/pkg/validator/task_validator.go` — the `taskValidator` semantic step
  rules (`validateStep`, `isValidRegistry`, `tagWithDigest`,
  `extractExpressionFromString`);
* `src/unnamed/part_000` (package `linter`) — the script linter
  (`NewConfig`, `validateScript`, `collectOverSteps`, `Validate`).

External collaborators (the Go `regexp` engine, the image-reference
library, the `validator.Result` type and the `parser.Resource` type, whose
sources are not part of the two files above) are modelled from the
specification's interface contracts; each such definition carries a doc
comment saying so.

Go semantics conventions used throughout:

* a Go run-time panic (slice out of range, failed type assertion) is
  modelled by `Option.none`;
* Go strings are modelled by Lean `String`, operated on through their
  character lists (`String.data`); Go indexes bytes while the model indexes
  characters, which coincide on ASCII data;
* external effects (`exec.LookPath`, `os.CreateTemp`, file writes, process
  execution) are modelled by an explicit environment record `ExecEnv`, and
  the observable actions of one `validateScript` call are recorded in an
  ordered trace of `Event`s.
-/

set_option maxRecDepth 100000

namespace Catlin

/-- Severity of one finding, per spec §3: `Severity ∈ \x7bWarning, Error\x7d`. -/
inductive Severity : Type
  | warning : Severity
  | error : Severity
deriving DecidableEq, Repr

/-- One finding: a severity together with its message (spec §3). -/
structure Finding : Type where
  sev : Severity
  msg : String
deriving DecidableEq, Repr

/-- Modelled from the spec: `validator.Result` (its Go source is not under
`src/`; only its callers are). Spec §3: "ordered sequence of findings". -/
structure Result : Type where
  findings : List Finding
deriving DecidableEq, Repr

/-- Modelled from the spec: `Result.Warn` appends one Warning finding. -/
def Result.warn (r : Result) (m : String) : Result :=
  ⟨r.findings ++ [⟨Severity.warning, m⟩]⟩

/-- Modelled from the spec: `Result.Error` appends one Error finding. -/
def Result.error (r : Result) (m : String) : Result :=
  ⟨r.findings ++ [⟨Severity.error, m⟩]⟩

/-- Modelled from the spec: `Result.Append` merges another Result in order,
"findings from the merged-in Result appended after existing ones" (§3). -/
def Result.append (r other : Result) : Result :=
  ⟨r.findings ++ other.findings⟩

/-! ### String helpers

Go `strings` package operations, modelled on character lists so that every
definition reduces by kernel computation. -/

/-- Go `strings.Contains s pat` on character lists: some split exhibits
`pat` as a contiguous segment. -/
def listContains (pat : List Char) : List Char → Bool
  | [] => pat.isEmpty
  | c :: cs => pat.isPrefixOf (c :: cs) || listContains pat cs

/-- The segment of `s` strictly before the first occurrence of `pat`
(`strings.Split(s, pat)[0]` for a nonempty `pat`); `s` itself when `pat`
does not occur. -/
def splitHead (pat : List Char) : List Char → List Char
  | [] => []
  | c :: cs => if pat.isPrefixOf (c :: cs) then [] else c :: splitHead pat cs

/-- Split at the first occurrence of `pat`: `some (before, after)` where
`before ++ pat ++ after = s`, or `none` when `pat` does not occur. -/
def splitOnce (pat : List Char) : List Char → Option (List Char × List Char)
  | [] => none
  | c :: cs =>
    if pat.isPrefixOf (c :: cs) then some ([], (c :: cs).drop pat.length)
    else match splitOnce pat cs with
      | none => none
      | some (a, b) => some (c :: a, b)

/-- The segment of `s` strictly after the last occurrence of `c`; `s`
itself when `c` does not occur. -/
def afterLastChar (c : Char) : List Char → List Char
  | [] => []
  | x :: xs =>
    if listContains [c] xs then afterLastChar c xs
    else if x = c then xs
    else x :: xs

/-- Go `strings.Contains` on strings. -/
def goContains (s pat : String) : Bool :=
  listContains pat.data s.data

/-- Go `strings.HasSuffix` on strings. -/
def goHasSuffix (s pat : String) : Bool :=
  pat.data.isSuffixOf s.data

/-- Go `strings.EqualFold`, restricted to ASCII case folding. -/
def goEqualFold (a b : String) : Bool :=
  a.data.map Char.toLower == b.data.map Char.toLower

/-- Go `strings.ToLower`, restricted to ASCII case folding. -/
def goToLower (s : String) : String :=
  ⟨s.data.map Char.toLower⟩

/-! ### Regular expressions

Modelled from the spec: the Go `regexp` engine is an external collaborator
(standard library). The model covers the RE2 subset actually used by the
linter configuration table — literals, `.`, grouping, alternation, the
postfix operators `* + ?`, and the escapes appearing there (`\n`, `\t`,
`\s`, escaped punctuation) — and reports an error on syntax outside this
subset or genuinely invalid in RE2 (unclosed group, dangling operator).
Matching is by Brzozowski derivatives; `.` matches any character except
newline, as in RE2 without flags. -/

/-- Regular-expression syntax tree for the modelled RE2 subset. -/
inductive Rx : Type
  | emp : Rx
  | eps : Rx
  | lit : Char → Rx
  | dot : Rx
  | cls : List Char → Rx
  | alt : Rx → Rx → Rx
  | cat : Rx → Rx → Rx
  | star : Rx → Rx
deriving DecidableEq, Repr

/-- Does the expression accept the empty string? -/
def nullable : Rx → Bool
  | .emp => false
  | .eps => true
  | .lit _ => false
  | .dot => false
  | .cls _ => false
  | .alt a b => nullable a || nullable b
  | .cat a b => nullable a && nullable b
  | .star _ => true

/-- Brzozowski derivative of an expression by one character. -/
def rderiv : Rx → Char → Rx
  | .emp, _ => .emp
  | .eps, _ => .emp
  | .lit c, x => if x = c then .eps else .emp
  | .dot, x => if x = '\n' then .emp else .eps
  | .cls cs, x => if cs.contains x then .eps else .emp
  | .alt a b, x => .alt (rderiv a x) (rderiv b x)
  | .cat a b, x =>
    if nullable a then .alt (.cat (rderiv a x) b) (rderiv b x)
    else .cat (rderiv a x) b
  | .star a, x => .cat (rderiv a x) (.star a)

/-- Whole-string match. -/
def rmatchFull : Rx → List Char → Bool
  | r, [] => nullable r
  | r, c :: cs => rmatchFull (rderiv r c) cs

/-- Does the expression match some prefix of the string (match anchored at
the start, as for a pattern beginning with `^`)? -/
def rmatchPre : Rx → List Char → Bool
  | r, [] => nullable r
  | r, c :: cs => nullable r || rmatchPre (rderiv r c) cs

/-- Does the expression match some substring (unanchored match)? -/
def rmatchSub : Rx → List Char → Bool
  | r, [] => nullable r
  | r, c :: cs => rmatchPre r (c :: cs) || rmatchSub r cs

/-- Whitespace characters of the RE2 class `\s` (`[\t\n\f\r ]`). -/
def wsChars : List Char :=
  ['\t', '\n', '\x0c', '\r', ' ']

/-- Stop characters ending a concatenation. -/
def isStopChar (c : Char) : Bool :=
  c = ')' || c = '|'

/-- Reject a second consecutive repetition operator (`a**` is invalid in
RE2). -/
def rejectRep (r : Rx) (cs : List Char) : Except String (Rx × List Char) :=
  match cs with
  | '*' :: _ => .error "invalid nested repetition operator"
  | '+' :: _ => .error "invalid nested repetition operator"
  | '?' :: _ => .error "invalid nested repetition operator"
  | _ => .ok (r, cs)

/-- Parse one atom: a group (via the callback `sub` for the nested
alternation), an escape, `.`, or a literal character. -/
def rparseAtom (sub : List Char → Except String (Rx × List Char)) :
    List Char → Except String (Rx × List Char)
  | [] => .error "missing atom"
  | '(' :: rest =>
    match rest with
    | '?' :: _ => .error "unsupported group flags"
    | _ =>
      match sub rest with
      | .error e => .error e
      | .ok (r, rest2) =>
        match rest2 with
        | ')' :: rest3 => .ok (r, rest3)
        | _ => .error "missing closing )"
  | '\\' :: [] => .error "trailing backslash at end of expression"
  | '\\' :: e :: rest =>
    if e = 'n' then .ok (.lit '\n', rest)
    else if e = 't' then .ok (.lit '\t', rest)
    else if e = 's' then .ok (.cls wsChars, rest)
    else if e.isAlphanum then .error "unsupported escape sequence"
    else .ok (.lit e, rest)
  | '.' :: rest => .ok (.dot, rest)
  | '*' :: _ => .error "missing argument to repetition operator"
  | '+' :: _ => .error "missing argument to repetition operator"
  | '?' :: _ => .error "missing argument to repetition operator"
  | '[' :: _ => .error "unsupported character class"
  | '^' :: _ => .error "unsupported anchor"
  | '$' :: _ => .error "unsupported anchor"
  | c :: rest => .ok (.lit c, rest)

/-- Parse one atom with an optional postfix repetition operator. -/
def rparseRep (sub : List Char → Except String (Rx × List Char))
    (cs : List Char) : Except String (Rx × List Char) :=
  match rparseAtom sub cs with
  | .error e => .error e
  | .ok (r, rest) =>
    match rest with
    | '*' :: rest2 => rejectRep (.star r) rest2
    | '+' :: rest2 => rejectRep (.cat r (.star r)) rest2
    | '?' :: rest2 => rejectRep (.alt r .eps) rest2
    | _ => .ok (r, rest)

/-- Parse a concatenation: repeated atoms until the end, `)` or `|`. -/
def rparseCatLoop (sub : List Char → Except String (Rx × List Char)) :
    Nat → List Char → Except String (Rx × List Char)
  | 0, _ => .error "pattern too long"
  | _, [] => .ok (.eps, [])
  | f + 1, c :: cs =>
    if isStopChar c then .ok (.eps, c :: cs)
    else
      match rparseRep sub (c :: cs) with
      | .error e => .error e
      | .ok (r, rest) =>
        match rparseCatLoop sub f rest with
        | .error e => .error e
        | .ok (r2, rest2) => .ok (.cat r r2, rest2)

/-- Parse an alternation: concatenations separated by `|`. -/
def rparseAltLoop (sub : List Char → Except String (Rx × List Char)) :
    Nat → List Char → Except String (Rx × List Char)
  | 0, _ => .error "pattern too long"
  | f + 1, cs =>
    match rparseCatLoop sub (cs.length + 1) cs with
    | .error e => .error e
    | .ok (r, rest) =>
      match rest with
      | '|' :: rest2 =>
        match rparseAltLoop sub f rest2 with
        | .error e => .error e
        | .ok (r2, rest3) => .ok (.alt r r2, rest3)
      | _ => .ok (r, rest)

/-- Top-level recursive-descent entry, with group-nesting fuel. -/
def rparse : Nat → List Char → Except String (Rx × List Char)
  | 0, _ => .error "pattern too deeply nested"
  | f + 1, cs => rparseAltLoop (rparse f) (cs.length + 1) cs

/-- Compile a pattern string: strip a leading `^` anchor, parse the body,
require the whole input consumed (a leftover `)` is an error). -/
def compilePattern (p : String) : Except String (Bool × Rx) :=
  let (anchored, body) :=
    match p.data with
    | '^' :: rest => (true, rest)
    | cs => (false, cs)
  match rparse (body.length + 1) body with
  | .error e => .error e
  | .ok (r, []) => .ok (anchored, r)
  | .ok (_, _ :: _) => .error "unexpected )"

/-- Modelled from the spec: Go `regexp.MatchString` — compile the pattern
(reporting compile errors) and test whether the string contains a match;
a leading `^` anchors the match at the start. -/
def matchString (pat s : String) : Except String Bool :=
  match compilePattern pat with
  | .error e => .error e
  | .ok (anchored, r) =>
    .ok (if anchored then rmatchPre r s.data else rmatchSub r s.data)

/-! ### Parameter-interpolation extraction

`task_validator.go` builds the pattern
`(\$(\(PFX.(?P<var>[_a-zA-Z][_a-zA-Z0-9.-]*(\[\*\])?)\)))` from
`braceMatchingRegex` and `parameterSubstitution` and takes the first match
(`FindStringSubmatch`). The pattern is concrete, so it is embedded as a
direct matcher: literal `$(`, the prefix, one arbitrary non-newline
character (the `.` after `%s`), the variable name, an optional `[*]`, and
a closing `)`; the leftmost match wins and the variable-name repetition is
effectively greedy because its character class excludes `[` and `)`. -/

/-- First character of a variable name: `[_a-zA-Z]`. -/
def varFirstChar (c : Char) : Bool :=
  c.isAlpha || c = '_'

/-- Later characters of a variable name: `[_a-zA-Z0-9.-]`. -/
def varTailChar (c : Char) : Bool :=
  varFirstChar c || c.isDigit || c = '.' || c = '-'

/-- Longest run of variable-name tail characters. -/
def varRun : List Char → List Char × List Char
  | [] => ([], [])
  | c :: cs =>
    if varTailChar c then
      let (a, b) := varRun cs
      (c :: a, b)
    else ([], c :: cs)

/-- Match the pattern tail after `$(` and the prefix: one non-newline
character, a variable name, an optional `[*]`, and `)`. Returns the
matched text. -/
def matchVarTail (s : List Char) : Option (List Char) :=
  match s with
  | [] => none
  | c :: rest =>
    if c = '\n' then none
    else
      match rest with
      | [] => none
      | f :: rest2 =>
        if varFirstChar f then
          let (run, rest3) := varRun rest2
          match rest3 with
          | '[' :: '*' :: ']' :: ')' :: _ =>
            some (c :: f :: (run ++ ['[', '*', ']', ')']))
          | ')' :: _ => some (c :: f :: (run ++ [')']))
          | _ => none
        else none

/-- Match the whole interpolation pattern at the head of `s`. -/
def matchVarAt (pfx : List Char) (s : List Char) : Option (List Char) :=
  match s with
  | c1 :: c2 :: rest =>
    if c1 = '$' ∧ c2 = '(' then
      if pfx.isPrefixOf rest then
        match matchVarTail (rest.drop pfx.length) with
        | some t => some ('$' :: '(' :: (pfx ++ t))
        | none => none
      else none
    else none
  | _ => none

/-- Leftmost match of the interpolation pattern anywhere in the string. -/
def findVarExpr (pfx : List Char) : List Char → Option (List Char)
  | [] => none
  | c :: cs =>
    match matchVarAt pfx (c :: cs) with
    | some m => some m
    | none => findVarExpr pfx cs

/-- `extractExpressionFromString` from `task_validator.go`: the first
`$(prefix…)` interpolation expression occurring in `s`, if any (the Go
function returns the pair `(match, ok)`; the model returns an option). -/
def extractExpressionFromString (s pfx : String) : Option String :=
  (findVarExpr pfx.data s.data).map fun l => ⟨l⟩

/-! ### Steps and the image-reference collaborator -/

/-- One environment variable of a step. `valueFromSecretKeyRef` models
`e.ValueFrom != nil && e.ValueFrom.SecretKeyRef != nil` on the Kubernetes
`EnvVar` type. -/
structure EnvVar : Type where
  name : String
  valueFromSecretKeyRef : Bool
deriving DecidableEq, Repr

/-- One bulk environment source of a step; `secretRef` models
`e.SecretRef != nil` on the Kubernetes `EnvFromSource` type. -/
structure EnvFromSource : Type where
  secretRef : Bool
deriving DecidableEq, Repr

/-- One step of a task (spec §3): the fields `validateStep` and the script
linter read. The v1 and v1beta1 schema revisions expose the same fields. -/
structure Step : Type where
  name : String
  image : String
  script : String
  env : List EnvVar
  envFrom : List EnvFromSource
deriving DecidableEq, Repr

/-- The dynamic argument of `validateStep` (`step interface{}`): a step of
either schema revision, or any other value (the `default` branch). -/
inductive StepInput : Type
  | v1 : Step → StepInput
  | v1beta1 : Step → StepInput
  | other : StepInput
deriving DecidableEq, Repr

/-- Go `%q` of a string: the string wrapped in double quotes (escaping of
special characters inside is not modelled). -/
def goQuote (s : String) : String :=
  "\"" ++ s ++ "\""

/-- Message of the variable-image warning (`validateStep`). -/
def warnVarImageMsg (stepName img : String) : String :=
  "Step " ++ goQuote stepName ++ " uses image " ++ goQuote img ++
    " that contains variables; skipping validation"

/-- Message of the unqualified-registry warning (`validateStep`). -/
def warnRegistryMsg (stepName img : String) : String :=
  "Step " ++ goQuote stepName ++ " uses image " ++ goQuote img ++
    "; consider using a fully qualified name - e.g. docker.io/library/ubuntu:1.0"

/-- Message of the malformed-digest error (`validateStep`). -/
def errDigestMsg (stepName img e : String) : String :=
  "Step " ++ goQuote stepName ++ " uses image " ++ goQuote img ++
    " with an invalid digest. Error: " ++ e

/-- Message of the digest-without-tag warning (`validateStep`). -/
def warnTagDigestMsg (stepName img : String) : String :=
  "Step " ++ goQuote stepName ++ " uses image " ++ goQuote img ++
    "; consider using an image tagged with specific version along with digest eg. abc.io/img:v1@sha256:abcde"

/-- Message of the malformed-tag error (`validateStep`). -/
def errTagMsg (stepName img e : String) : String :=
  "Step " ++ goQuote stepName ++ " uses image " ++ goQuote img ++
    " with an invalid tag. Error: " ++ e

/-- Message of the `latest`-tag error (`validateStep`). -/
def errLatestMsg (stepName img : String) : String :=
  "Step " ++ goQuote stepName ++ " uses image " ++ goQuote img ++
    " which must be tagged with a specific version"

/-- Message of the secret-as-env warning for one variable (`validateStep`). -/
def warnSecretEnvMsg (stepName envName : String) : String :=
  "Step " ++ goQuote stepName ++ " uses secret to populate env " ++
    goQuote envName ++
    ". Prefer using secrets as files over secrets as environment variables"

/-- Message of the secret-as-env warning for a bulk source (`validateStep`). -/
def warnSecretEnvFromMsg (stepName : String) : String :=
  "Step " ++ goQuote stepName ++
    " uses secret as environment variables. Prefer using secrets as files over secrets as environment variables"

/-- Message of the script-parameter-leak warning (`validateStep`). -/
def warnParamScriptMsg (stepName expr : String) : String :=
  "Step " ++ goQuote stepName ++ " references " ++ goQuote expr ++
    " directly from its script block. For reliability and security, consider putting the param into an environment variable of the Step and accessing that environment variable in your script instead."

/-- Is the character a lowercase hexadecimal digit? -/
def isHexChar (c : Char) : Bool :=
  c.isDigit || ('a' ≤ c ∧ c ≤ 'f')

/-- Modelled from the spec: `name.NewDigest(img, name.WeakValidation)`
from the image-reference collaborator (§6) — split at the first `@`; the
digest part must be `sha256:` followed by exactly 64 hexadecimal
characters and the repository part must be nonempty, otherwise fail with a
descriptive parse error. On success, `rep.String()` returns the original
reference string, which is what the model returns. -/
def newDigest (img : String) : Except String String :=
  match splitOnce ['@'] img.data with
  | none => .error ("could not parse reference: " ++ img)
  | some (base, dig) =>
    if ("sha256:".data.isPrefixOf dig ∧ (dig.drop 7).length = 64 ∧
        (dig.drop 7).all isHexChar ∧ base ≠ []) then
      .ok img
    else .error ("could not parse reference: " ++ img)

/-- Modelled from the spec: `name.NewTag(img, name.WeakValidation)` from
the image-reference collaborator (§6) — extract the tag after the last `:`
of the last path segment; with weak validation a missing tag defaults to
`latest`; a present tag must be nonempty and use tag characters
(`[A-Za-z0-9_.-]`), otherwise fail with a descriptive parse error.
`ref.Identifier()` returns the tag, which is what the model returns. -/
def newTag (img : String) : Except String String :=
  let lastSeg := afterLastChar '/' img.data
  match splitOnce [':'] lastSeg with
  | none => .ok "latest"
  | some (_, tag) =>
    if (tag ≠ [] ∧ tag.all fun c => c.isAlphanum || c = '_' || c = '.' || c = '-') then
      .ok ⟨tag⟩
    else .error ("could not parse reference: " ++ img)

/-- `isValidRegistry` from `task_validator.go`: the segment before the
first `/` contains a `.`. -/
def isValidRegistry (img : String) : Bool :=
  listContains ['.'] (splitHead ['/'] img.data)

/-- `tagWithDigest` from `task_validator.go`: the segment before the first
`@sha256` contains a `:` and does not end in `:latest`. -/
def tagWithDigest (img : String) : Bool :=
  let withOutDigest : String := ⟨splitHead "@sha256".data img.data⟩
  goContains withOutDigest ":" && !goHasSuffix withOutDigest ":latest"

/-- Findings of `taskValidator.validateStep` for one decoded step, given
the schema-revision string the Go code stores in `version`. Mirrors the
source control flow: variable-image skip (early return), registry
qualification, digest branch (early return), tag parse and `latest`
check, secret-as-env loops, script parameter-leak check. -/
def stepFindings (version : String) (s : Step) : List Finding :=
  match extractExpressionFromString s.image "" with
  | some _ => [⟨Severity.warning, warnVarImageMsg s.name s.image⟩]
  | none =>
    let r1 : List Finding :=
      if !goContains s.image "/" || !isValidRegistry s.image then
        [⟨Severity.warning, warnRegistryMsg s.name s.image⟩]
      else []
    if goContains s.image "@sha256" then
      match newDigest s.image with
      | .error e => r1 ++ [⟨Severity.error, errDigestMsg s.name s.image e⟩]
      | .ok rep =>
        r1 ++
          (if !tagWithDigest rep then
            [⟨Severity.warning, warnTagDigestMsg s.name s.image⟩]
          else [])
    else
      match newTag s.image with
      | .error e => r1 ++ [⟨Severity.error, errTagMsg s.name s.image e⟩]
      | .ok tg =>
        let r2 : List Finding :=
          if goEqualFold tg "latest" then
            [⟨Severity.error, errLatestMsg s.name s.image⟩]
          else []
        let r3 : List Finding :=
          s.env.filterMap fun e =>
            if (version == "v1" || version == "v1beta1") &&
                e.valueFromSecretKeyRef then
              some ⟨Severity.warning, warnSecretEnvMsg s.name e.name⟩
            else none
        let r4 : List Finding :=
          s.envFrom.filterMap fun e =>
            if (version == "v1" || version == "v1beta1") && e.secretRef then
              some ⟨Severity.warning, warnSecretEnvFromMsg s.name⟩
            else none
        let r5 : List Finding :=
          if s.script ≠ "" then
            match extractExpressionFromString s.script "params" with
            | some expr => [⟨Severity.warning, warnParamScriptMsg s.name expr⟩]
            | none => []
          else []
        r1 ++ r2 ++ r3 ++ r4 ++ r5

/-- `taskValidator.validateStep` from `task_validator.go`: dispatch on the
dynamic type of the step; any other value yields the empty result. -/
def validateStep : StepInput → Result
  | .v1 s => ⟨stepFindings "v1" s⟩
  | .v1beta1 s => ⟨stepFindings "v1beta1" s⟩
  | .other => ⟨[]⟩

/-! ### The script linter (package `linter`, `src/unnamed/part_000`) -/

/-- One external linter invocation: command and fixed arguments (`linter`
struct). -/
structure Linter : Type where
  cmd : String
  args : List String
deriving DecidableEq, Repr

/-- One rule of the linter configuration table (`config` struct): an
interpreter pattern and its ordered linters. -/
structure Config : Type where
  regexp : String
  linters : List Linter
deriving DecidableEq, Repr

/-- `NewConfig`: the default interpreter→linter table, reproduced exactly
from the source. -/
def NewConfig : List Config :=
  [⟨"(/usr/bin/env |.*/bin/)sh",
    [⟨"shellcheck", ["-s", "sh"]⟩, ⟨"sh", ["-n"]⟩]⟩,
   ⟨"(/usr/bin/env |.*/bin/)bash",
    [⟨"shellcheck", ["-s", "bash"]⟩, ⟨"bash", ["-n"]⟩]⟩,
   ⟨"(/usr/bin/env\\s|.*/bin/|/usr/libexec/platform-)python(23)?",
    [⟨"pylint", ["-dC0103"]⟩]⟩]

/-- The execution environment of one `validateScript` call: the outcomes
of `exec.LookPath`, `os.CreateTemp` (indexed by how many temporary files
the call has created so far), the temporary-file write and close, and the
external command run (resolved path and full argument list to combined
output and success flag). -/
structure ExecEnv : Type where
  lookPath : String → Option String
  createTemp : Nat → Option String
  writeOk : Nat → Bool
  closeOk : Nat → Bool
  run : String → List String → String × Bool

/-- One observable action of a `validateScript` call: writing script text
to a temporary file, or invoking an external linter (resolved path,
configured arguments, temporary-file path; the actual argument vector is
the configured arguments followed by the file path). -/
inductive Event : Type
  | write : String → String → Event
  | invoke : String → List String → String → Event
deriving DecidableEq, Repr

/-- State threaded through the rule loop of `validateScript`: findings so
far, events so far, number of temporary files created so far. -/
structure LoopState : Type where
  res : List Finding
  events : List Event
  tmpIdx : Nat
deriving DecidableEq, Repr

/-- Outcome of the linter loop of one rule: continue with the next rule,
or return from `validateScript` immediately (the `return result`
statements in the source). -/
inductive LoopOut : Type
  | cont : LoopState → LoopOut
  | halt : LoopState → LoopOut
deriving DecidableEq, Repr

/-- Go `fmt` rendering of a `[]string` argument (`%s` of a slice). -/
def goFmtArgs (args : List String) : String :=
  "[" ++ String.intercalate " " args ++ "]"

/-- Go `strings.ReplaceAll` (fuel-indexed helper; the fuel is the length
of the subject and `pat` is nonempty in every use). -/
def replaceAllAux (pat rep : List Char) : Nat → List Char → List Char
  | 0, s => s
  | _ + 1, [] => []
  | fuel + 1, c :: cs =>
    if pat.isPrefixOf (c :: cs) then
      rep ++ replaceAllAux pat rep fuel ((c :: cs).drop pat.length)
    else c :: replaceAllAux pat rep fuel cs

/-- Go `strings.ReplaceAll` on strings. -/
def goReplaceAll (s pat rep : String) : String :=
  ⟨replaceAllAux pat.data rep.data s.data.length s.data⟩

/-- The inner linter loop of `taskLinter.validateScript` for one matched
rule: resolve the command (failure: Error and return), create, write and
close a temporary file (failure: Error and return), run the command, and
on non-zero exit append an Error embedding the combined output with the
temporary path replaced by `taskName-stepName`. -/
def runLinters (taskName stepName script : String) (env : ExecEnv) :
    List Linter → LoopState → LoopOut
  | [], st => .cont st
  | l :: ls, st =>
    match env.lookPath l.cmd with
    | none =>
      .halt ⟨st.res ++
        [⟨Severity.error, "Couldn't find the linter " ++ l.cmd ++ " in the path"⟩],
        st.events, st.tmpIdx⟩
    | some execpath =>
      match env.createTemp st.tmpIdx with
      | none =>
        .halt ⟨st.res ++ [⟨Severity.error, "Cannot create temporary files"⟩],
          st.events, st.tmpIdx⟩
      | some tmpname =>
        if !env.writeOk st.tmpIdx then
          .halt ⟨st.res ++ [⟨Severity.error, "Cannot write to temporary files"⟩],
            st.events, st.tmpIdx + 1⟩
        else
          let evs := st.events ++ [Event.write tmpname script]
          if !env.closeOk st.tmpIdx then
            .halt ⟨st.res ++ [⟨Severity.error, "Cannot close temporary files"⟩],
              evs, st.tmpIdx + 1⟩
          else
            let (out, ok) := env.run execpath (l.args ++ [tmpname])
            let evs := evs ++ [Event.invoke execpath l.args tmpname]
            let res :=
              if ok then st.res
              else
                st.res ++
                  [⟨Severity.error,
                    execpath ++ ", " ++ goFmtArgs l.args ++ " failed:\n" ++
                      goReplaceAll out tmpname (taskName ++ "-" ++ stepName)⟩]
            runLinters taskName stepName script env ls ⟨res, evs, st.tmpIdx + 1⟩

/-- The rule loop of `taskLinter.validateScript`: for each configuration
rule in table order, match `^#!` + pattern + `\n` against the script
(compile failure: Error naming the pattern and return), skip the rule when
unmatched, and otherwise run its linters. -/
def runConfigs (taskName stepName script : String) (env : ExecEnv) :
    List Config → LoopState → LoopState
  | [], st => st
  | c :: rest, st =>
    match matchString ("^#!" ++ c.regexp ++ "\\n") script with
    | .error _ =>
      ⟨st.res ++ [⟨Severity.error, "Invalid regexp: " ++ c.regexp⟩],
        st.events, st.tmpIdx⟩
    | .ok false => runConfigs taskName stepName script env rest st
    | .ok true =>
      match runLinters taskName stepName script env c.linters st with
      | .halt st2 => st2
      | .cont st2 => runConfigs taskName stepName script env rest st2

/-- `taskLinter.validateScript`: `none` models a Go run-time panic. The
source slices `script[0:2]` unconditionally (panic when the script is
shorter than 2) and `script[0:14]` in the shebang branch (panic when a
shebang-led script is shorter than 14). A script with no shebang is
replaced by `"#!/usr/bin/env sh\n" + script` before the rule loop; a
shebang not starting `#!/usr/bin/env` yields a Warning. -/
def validateScript (taskName script : String) (configs : List Config)
    (stepName : String) (env : ExecEnv) : Option (Result × List Event) :=
  if script.data.length < 2 then none
  else if ⟨script.data.take 2⟩ ≠ ("#!" : String) then
    let script2 := "#!/usr/bin/env sh\n" ++ script
    let final := runConfigs taskName stepName script2 env configs ⟨[], [], 0⟩
    some (⟨final.res⟩, final.events)
  else if script.data.length < 14 then none
  else
    let warns : List Finding :=
      if ⟨script.data.take 14⟩ ≠ ("#!/usr/bin/env" : String) then
        [⟨Severity.warning, "step: " ++ taskName ++ " is not using #!/usr/bin/env "⟩]
      else []
    let final := runConfigs taskName stepName script env configs ⟨warns, [], 0⟩
    some (⟨final.res⟩, final.events)

/-! ### `taskLinter.Validate` and the resource collaborator -/

/-- Modelled from the spec: the typed value produced by the parser
collaborator's `ToType` (§6) — a task-like resource of one of the two
schema revisions, exposing `ObjectMeta.Name` and `Spec.Steps`. -/
inductive Typed : Type
  | v1Task : String → List Step → Typed
  | v1beta1Task : String → List Step → Typed
  | v1beta1ClusterTask : String → List Step → Typed
deriving DecidableEq, Repr

/-- Modelled from the spec: `parser.Resource` (§6) — a declared `Kind`
together with the outcome of coercing the resource (`ToType`), which may
fail with a descriptive error. -/
structure Resource : Type where
  kind : String
  toType : Except String Typed

/-- `taskLinter.collectOverSteps`: validate the script of every step with
a nonempty script, appending results in step order; a panic in any script
validation (modelled `none`) propagates. -/
def collectOverSteps (steps : List Step) (name : String)
    (configs : List Config) (env : ExecEnv) : Option Result :=
  steps.foldlM
    (fun acc step =>
      if step.script ≠ "" then
        match validateScript name step.script configs step.name env with
        | none => none
        | some (r, _) => some (Result.append acc r)
      else some acc)
    (⟨[]⟩ : Result)

/-- `taskLinter.Validate`: decode the resource (failure: a single Error
finding), then dispatch on the lowercased kind. The source uses one-value
type assertions (`res.(*v1.Task)`, `res.(*v1beta1.ClusterTask)`), which
panic — modelled `none` — when the decoded value has a different dynamic
type; an unrecognized kind yields the empty result. -/
def taskLinterValidate (r : Resource) (configs : List Config)
    (env : ExecEnv) : Option Result :=
  match r.toType with
  | .error e =>
    some ⟨[⟨Severity.error, "Failed to decode to a Task - " ++ e⟩]⟩
  | .ok typed =>
    if goToLower r.kind = "task" then
      match typed with
      | .v1Task name steps => collectOverSteps steps name configs env
      | _ => none
    else if goToLower r.kind = "clustertask" then
      match typed with
      | .v1beta1ClusterTask name steps => collectOverSteps steps name configs env
      | _ => none
    else some ⟨[]⟩

/-! ### Auxiliary definitions for the statements -/

/-- The state carried by either outcome of the linter loop. -/
def stateOf : LoopOut → LoopState
  | .cont st => st
  | .halt st => st

/-- The external-linter invocations of a trace, as (resolved path,
configured arguments) pairs in order. -/
def invocationsOf (evs : List Event) : List (String × List String) :=
  evs.filterMap fun e =>
    match e with
    | .invoke p a _ => some (p, a)
    | .write _ _ => none

/-- The (resolved path, configured arguments) invocations one rule
contributes in an environment where its commands resolve: its linters in
listed order when its pattern matches the script, nothing otherwise. -/
def matchedLinters (scr : String) (env : ExecEnv) (c : Config) :
    List (String × List String) :=
  match matchString ("^#!" ++ c.regexp ++ "\\n") scr with
  | .ok true => c.linters.map fun l => ((env.lookPath l.cmd).getD "", l.args)
  | _ => []

/-- The compiled form of the default-shell rule's full pattern
`^#!(/usr/bin/env |.*/bin/)sh\n`. -/
def defaultShRx : Rx :=
  match compilePattern ("^#!" ++ "(/usr/bin/env |.*/bin/)sh" ++ "\\n") with
  | .ok (_, r) => r
  | .error _ => .emp

/-- A concrete environment in which every command resolves under `/bin/`,
temporary files `tmp0`, `tmp1`, … are created, written and closed
successfully, and every external run succeeds with empty output. -/
def resolveEnv : ExecEnv :=
  ⟨fun c => some ("/bin/" ++ c), fun n => some ("tmp" ++ toString n),
   fun _ => true, fun _ => true, fun _ _ => ("", true)⟩

/-- A concrete environment identical to `resolveEnv` except that the
`shellcheck` command is absent from the search path. -/
def noShellcheckEnv : ExecEnv :=
  ⟨fun c => if c = "shellcheck" then none else some ("/bin/" ++ c),
   fun n => some ("tmp" ++ toString n),
   fun _ => true, fun _ => true, fun _ _ => ("", true)⟩

/-- A 64-character lowercase hexadecimal digest body used as a concrete
well-formed digest. -/
def hex64 : String :=
  ⟨List.replicate 64 'a'⟩

/-! ## Helper lemmas -/

theorem isPrefixOf_append_true {l u : List Char} (t : List Char)
    (h : l.isPrefixOf u = true) : l.isPrefixOf (u ++ t) = true := by
  induction l generalizing u with
  | nil => simp [List.isPrefixOf]
  | cons a as ih =>
    cases u with
    | nil => simp [List.isPrefixOf] at h
    | cons b bs =>
      simp only [List.isPrefixOf, Bool.and_eq_true] at h ⊢
      exact ⟨h.1, by simp [ih h.2]⟩

theorem isPrefixOf_self_app (l t : List Char) : l.isPrefixOf (l ++ t) = true := by
  induction l with
  | nil => simp [List.isPrefixOf]
  | cons a as ih => simp [List.isPrefixOf, ih]

theorem isPrefixOf_true_le {l u : List Char} (h : l.isPrefixOf u = true) :
    l.length ≤ u.length := by
  induction l generalizing u with
  | nil => simp
  | cons a as ih =>
    cases u with
    | nil => simp [List.isPrefixOf] at h
    | cons b bs =>
      simp only [List.isPrefixOf, Bool.and_eq_true] at h
      simpa using ih h.2

theorem isPrefixOf_append_eq {l u : List Char} (t : List Char)
    (h : l.length ≤ u.length) : l.isPrefixOf (u ++ t) = l.isPrefixOf u := by
  induction l generalizing u with
  | nil => simp [List.isPrefixOf]
  | cons a as ih =>
    cases u with
    | nil => simp at h
    | cons b bs =>
      simp only [List.cons_append, List.isPrefixOf, List.append_eq]
      rw [ih (by simpa using h)]

theorem listContains_append_true {p s : List Char} (t : List Char)
    (h : listContains p s = true) : listContains p (s ++ t) = true := by
  induction s with
  | nil =>
    simp only [listContains] at h
    simp [listContains_of_empty h]
  | cons c cs ih =>
    simp only [listContains, Bool.or_eq_true] at h ⊢
    rcases h with h | h
    · exact Or.inl (by simpa using isPrefixOf_append_true t h)
    · exact Or.inr (ih h)
where
  listContains_of_empty {p : List Char} (h : p.isEmpty = true) (s : List Char) :
      listContains p s = true := by
    rcases p with _ | ⟨c, cs⟩
    · induction s with
      | nil => simp [listContains]
      | cons x xs ih => simp [listContains, List.isPrefixOf]
    · simp [List.isEmpty] at h

theorem listContains_true_le {p s : List Char} (h : listContains p s = true) :
    p.length ≤ s.length := by
  induction s with
  | nil =>
    simp only [listContains, List.isEmpty_iff] at h
    simp [h]
  | cons c cs ih =>
    simp only [listContains, Bool.or_eq_true] at h
    rcases h with h | h
    · simpa using isPrefixOf_true_le h
    · exact Nat.le_succ_of_le (ih h)

theorem splitHead_append {p s : List Char} (t : List Char)
    (h : listContains p s = true) : splitHead p (s ++ t) = splitHead p s := by
  induction s with
  | nil =>
    simp only [listContains, List.isEmpty_iff] at h
    subst h
    cases t with
    | nil => rfl
    | cons x xs => simp [splitHead, List.isPrefixOf]
  | cons c cs ih =>
    simp only [listContains, Bool.or_eq_true] at h
    simp only [List.cons_append, splitHead]
    rcases h with h | h
    · rw [if_pos (by simpa using isPrefixOf_append_true t h), if_pos h]
    · have hle : p.length ≤ (c :: cs).length := by
        simpa using Nat.le_succ_of_le (listContains_true_le h)
      have heq := isPrefixOf_append_eq (l := p) (u := c :: cs) t hle
      simp only [List.cons_append, List.append_eq] at heq
      simp only [List.append_eq]
      rw [heq]
      by_cases hp : p.isPrefixOf (c :: cs) = true
      · rw [if_pos hp, if_pos hp]
      · rw [if_neg (by simp [hp]), if_neg (by simp [hp]), ih h]

theorem splitOnce_some_le {p s a b : List Char}
    (h : splitOnce p s = some (a, b)) : p.length ≤ s.length := by
  induction s generalizing a with
  | nil => simp [splitOnce] at h
  | cons c cs ih =>
    simp only [splitOnce] at h
    by_cases hp : p.isPrefixOf (c :: cs) = true
    · exact isPrefixOf_true_le hp
    · rw [if_neg (by simp [hp])] at h
      cases hso : splitOnce p cs with
      | none => rw [hso] at h; simp at h
      | some ab =>
        obtain ⟨a2, b2⟩ := ab
        rw [hso] at h
        simp only [Option.some.injEq, Prod.mk.injEq] at h
        exact Nat.le_succ_of_le (ih (a := a2) (by rw [hso, h.2]))

theorem splitOnce_append {p s : List Char} (t : List Char) {a b : List Char}
    (h : splitOnce p s = some (a, b)) :
    splitOnce p (s ++ t) = some (a, b ++ t) := by
  induction s generalizing a with
  | nil => simp [splitOnce] at h
  | cons c cs ih =>
    simp only [splitOnce] at h
    simp only [List.cons_append, splitOnce]
    by_cases hp : p.isPrefixOf (c :: cs) = true
    · rw [if_pos hp] at h
      rw [if_pos (by simpa using isPrefixOf_append_true t hp)]
      simp only [Option.some.injEq, Prod.mk.injEq] at h ⊢
      obtain ⟨ha, hb⟩ := h
      refine ⟨ha, ?_⟩
      have hle : p.length ≤ (c :: cs).length := isPrefixOf_true_le hp
      rw [← hb]
      have hd : List.drop p.length ((c :: cs) ++ t) =
          List.drop p.length (c :: cs) ++ t :=
        List.drop_append_of_le_length hle
      simpa using hd
    · rw [if_neg (by simp [hp])] at h
      have hle : p.length ≤ (c :: cs).length := by
        cases hso : splitOnce p cs with
        | none => rw [hso] at h; simp at h
        | some ab => exact Nat.le_succ_of_le (by
            obtain ⟨a2, b2⟩ := ab
            exact splitOnce_some_le hso)
      have heq := isPrefixOf_append_eq (l := p) (u := c :: cs) t hle
      simp only [List.cons_append, List.append_eq] at heq
      simp only [List.append_eq]
      rw [heq, if_neg (by simp [hp])]
      cases hso : splitOnce p cs with
      | none => rw [hso] at h; simp at h
      | some ab =>
        obtain ⟨a2, b2⟩ := ab
        rw [hso] at h
        simp only [Option.some.injEq, Prod.mk.injEq] at h
        obtain ⟨ha, hb⟩ := h
        rw [ih (by rw [hso, hb])]
        simp [← ha]

theorem matchVarAt_none_of_head {pfx : List Char} {c : Char} {cs : List Char}
    (h : c ≠ '$') : matchVarAt pfx (c :: cs) = none := by
  cases cs with
  | nil => rfl
  | cons c2 rest =>
    simp only [matchVarAt]
    rw [if_neg]
    intro hc
    exact h hc.1

theorem findVarExpr_none_of_no_dollar {pfx s : List Char}
    (h : '$' ∉ s) : findVarExpr pfx s = none := by
  induction s with
  | nil => rfl
  | cons c cs ih =>
    simp only [List.mem_cons, not_or] at h
    have hm : matchVarAt pfx (c :: cs) = none :=
      matchVarAt_none_of_head fun hc => h.1 hc.symm
    simp only [findVarExpr, hm]
    exact ih h.2

theorem extract_none_of_no_dollar {s : String} (pfx : String)
    (h : '$' ∉ s.data) : extractExpressionFromString s pfx = none := by
  simp [extractExpressionFromString, findVarExpr_none_of_no_dollar h]

theorem rmatchPre_of_full {r : Rx} {p : List Char} (s : List Char)
    (h : rmatchFull r p = true) : rmatchPre r (p ++ s) = true := by
  induction p generalizing r with
  | nil =>
    simp only [rmatchFull] at h
    cases s with
    | nil => simpa [rmatchPre]
    | cons c cs => simp [rmatchPre, h]
  | cons c cs ih =>
    simp only [rmatchFull] at h
    simp [rmatchPre, ih h]

theorem matchString_ok_of_full {pat : String} {r : Rx} (p s : String)
    (hc : compilePattern pat = Except.ok (true, r))
    (h : rmatchFull r p.data = true) :
    matchString pat (p ++ s) = Except.ok true := by
  simp only [matchString, hc, String.data_append, if_true]
  simp [rmatchPre_of_full s.data h]

theorem invocationsOf_append (a b : List Event) :
    invocationsOf (a ++ b) = invocationsOf a ++ invocationsOf b :=
  List.filterMap_append a b _

theorem runLinters_all_success (tn sn scr : String) (env : ExecEnv)
    (hct : ∀ i, (env.createTemp i).isSome = true)
    (hw : ∀ i, env.writeOk i = true) (hcl : ∀ i, env.closeOk i = true) :
    ∀ (ls : List Linter) (st : LoopState),
      (∀ l ∈ ls, (env.lookPath l.cmd).isSome = true) →
      ∃ st2, runLinters tn sn scr env ls st = LoopOut.cont st2 ∧
        invocationsOf st2.events =
          invocationsOf st.events ++
            ls.map (fun l => ((env.lookPath l.cmd).getD "", l.args)) := by
  intro ls
  induction ls with
  | nil =>
    intro st _
    exact ⟨st, rfl, by simp⟩
  | cons l ls ih =>
    intro st hlp
    obtain ⟨p, hp⟩ := Option.isSome_iff_exists.mp (hlp l (List.mem_cons_self l ls))
    obtain ⟨fn, hf⟩ := Option.isSome_iff_exists.mp (hct st.tmpIdx)
    rcases hr : env.run p (l.args ++ [fn]) with ⟨out, ok⟩
    have hstep : runLinters tn sn scr env (l :: ls) st =
        runLinters tn sn scr env ls
          ⟨if ok then st.res
            else st.res ++ [⟨Severity.error,
              p ++ ", " ++ goFmtArgs l.args ++ " failed:\n" ++
                goReplaceAll out fn (tn ++ "-" ++ sn)⟩],
           st.events ++ [Event.write fn scr] ++ [Event.invoke p l.args fn],
           st.tmpIdx + 1⟩ := by
      simp [runLinters, hp, hf, hw st.tmpIdx, hcl st.tmpIdx, hr]
    obtain ⟨st2, h2, hinv⟩ := ih
      ⟨if ok then st.res
        else st.res ++ [⟨Severity.error,
          p ++ ", " ++ goFmtArgs l.args ++ " failed:\n" ++
            goReplaceAll out fn (tn ++ "-" ++ sn)⟩],
       st.events ++ [Event.write fn scr] ++ [Event.invoke p l.args fn],
       st.tmpIdx + 1⟩
      (fun x hx => hlp x (List.mem_cons_of_mem l hx))
    refine ⟨st2, hstep.trans h2, ?_⟩
    rw [hinv]
    simp [invocationsOf_append, invocationsOf, hp]

theorem runLinters_write_content (tn sn scr : String) (env : ExecEnv) :
    ∀ (ls : List Linter) (st : LoopState) (f c : String),
      Event.write f c ∈ (stateOf (runLinters tn sn scr env ls st)).events →
      Event.write f c ∈ st.events ∨ c = scr := by
  intro ls
  induction ls with
  | nil =>
    intro st f c h
    exact Or.inl h
  | cons l ls ih =>
    intro st f c h
    cases hp : env.lookPath l.cmd with
    | none =>
      simp only [runLinters, hp, stateOf] at h
      exact Or.inl h
    | some p =>
      cases hf : env.createTemp st.tmpIdx with
      | none =>
        simp only [runLinters, hp, hf, stateOf] at h
        exact Or.inl h
      | some fn =>
        cases hwr : env.writeOk st.tmpIdx with
        | false =>
          simp only [runLinters, hp, hf, hwr, stateOf] at h
          simp only [Bool.not_false, if_true] at h
          exact Or.inl h
        | true =>
          cases hcl : env.closeOk st.tmpIdx with
          | false =>
            simp only [runLinters, hp, hf, hwr, hcl, stateOf] at h
            simp only [Bool.not_true, Bool.not_false, if_false, if_true] at h
            rcases List.mem_append.mp h with h2 | h2
            · exact Or.inl h2
            · simp only [List.mem_singleton, Event.write.injEq] at h2
              exact Or.inr h2.2
          | true =>
            rcases hr : env.run p (l.args ++ [fn]) with ⟨out, ok⟩
            have hstep : runLinters tn sn scr env (l :: ls) st =
                runLinters tn sn scr env ls
                  ⟨if ok then st.res
                    else st.res ++ [⟨Severity.error,
                      p ++ ", " ++ goFmtArgs l.args ++ " failed:\n" ++
                        goReplaceAll out fn (tn ++ "-" ++ sn)⟩],
                   st.events ++ [Event.write fn scr] ++ [Event.invoke p l.args fn],
                   st.tmpIdx + 1⟩ := by
              simp [runLinters, hp, hf, hwr, hcl, hr]
            rw [hstep] at h
            rcases ih _ f c h with h2 | h2
            · simp only [List.append_assoc, List.mem_append,
                List.mem_singleton, Event.write.injEq] at h2
              rcases h2 with h3 | h3 | h3
              · exact Or.inl h3
              · exact Or.inr h3.2
              · exact absurd h3 (by simp)
            · exact Or.inr h2

theorem runConfigs_write_content (tn sn scr : String) (env : ExecEnv) :
    ∀ (cfgs : List Config) (st : LoopState) (f c : String),
      Event.write f c ∈ (runConfigs tn sn scr env cfgs st).events →
      Event.write f c ∈ st.events ∨ c = scr := by
  intro cfgs
  induction cfgs with
  | nil =>
    intro st f c h
    exact Or.inl h
  | cons cf rest ih =>
    intro st f c h
    cases hm : matchString ("^#!" ++ cf.regexp ++ "\\n") scr with
    | error e =>
      simp only [runConfigs, hm] at h
      exact Or.inl h
    | ok b =>
      cases b with
      | false =>
        simp only [runConfigs, hm] at h
        exact ih st f c h
      | true =>
        simp only [runConfigs, hm] at h
        cases hr : runLinters tn sn scr env cf.linters st with
        | halt st2 =>
          rw [hr] at h
          exact runLinters_write_content tn sn scr env cf.linters st f c
            (by rw [hr]; exact h)
        | cont st2 =>
          rw [hr] at h
          rcases ih st2 f c h with h2 | h2
          · exact runLinters_write_content tn sn scr env cf.linters st f c
              (by rw [hr]; exact h2)
          · exact Or.inr h2

/-! ## Claim theorems -/

/-- C8: for arbitrary Results A and B, appending B into A yields a Result
whose ordered findings are exactly A's findings followed by B's findings,
and the merge is associative. -/
theorem result_append_ordered_assoc (a b c : Result) :
    (Result.append a b).findings = a.findings ++ b.findings ∧
    Result.append (Result.append a b) c = Result.append a (Result.append b c) := by
  refine ⟨rfl, ?_⟩
  simp [Result.append]

/-- C3 (failing input): the linter's Validate panics — modelled `none` —
on a successfully decoded v1 Task of kind `task` containing one step whose
script is the single character `x`, because `validateScript` slices
`script[0:2]` without a length check. The claim that Validate returns a
Result normally for every successfully decoded resource of a recognized
kind fails here. -/
theorem taskLinterValidate_panics_on_short_script :
    taskLinterValidate ⟨"task", Except.ok (Typed.v1Task "t" [⟨"s", "img", "x", [], []⟩])⟩
      NewConfig resolveEnv = none := by
  decide

/-- C4 (counterexample): the non-empty one-character script `:` has no
shebang, yet validating it aborts (Go: slice out of range on
`script[0:2]`, modelled `none`) instead of evaluating it under the
synthesized default shebang. -/
theorem validateScript_aborts_on_one_char_script :
    validateScript "t" ":" NewConfig "s" resolveEnv = none := by
  decide

/-- C4 (amended): for every script of length at least 2 with no shebang,
validation never aborts on shebang detection — it runs the rule loop on
the script prefixed with the synthesized `#!/usr/bin/env sh\n` — and the
default-shell rule of the configuration table matches the synthesized
script. -/
theorem validateScript_no_shebang_default_rule (tn sn script : String)
    (configs : List Config) (env : ExecEnv)
    (h2 : 2 ≤ script.data.length)
    (hs : (⟨script.data.take 2⟩ : String) ≠ "#!") :
    validateScript tn script configs sn env =
      some (⟨(runConfigs tn sn ("#!/usr/bin/env sh\n" ++ script) env configs
          ⟨[], [], 0⟩).res⟩,
        (runConfigs tn sn ("#!/usr/bin/env sh\n" ++ script) env configs
          ⟨[], [], 0⟩).events) ∧
    matchString ("^#!" ++ (NewConfig.headD ⟨"", []⟩).regexp ++ "\\n")
      ("#!/usr/bin/env sh\n" ++ script) = Except.ok true := by
  constructor
  · simp only [validateScript]
    rw [if_neg (by omega), if_pos hs]
  · exact matchString_ok_of_full "#!/usr/bin/env sh\n" script rfl (by decide)

/-- C4 (witness): the amended theorem applied to the concrete script
`echo hi\n` with the default table. -/
theorem validateScript_no_shebang_default_rule_witness :
    2 ≤ ("echo hi\n" : String).data.length ∧
    (validateScript "t" "echo hi\n" NewConfig "s" resolveEnv =
      some (⟨(runConfigs "t" "s" ("#!/usr/bin/env sh\n" ++ "echo hi\n") resolveEnv
          NewConfig ⟨[], [], 0⟩).res⟩,
        (runConfigs "t" "s" ("#!/usr/bin/env sh\n" ++ "echo hi\n") resolveEnv
          NewConfig ⟨[], [], 0⟩).events) ∧
    matchString ("^#!" ++ (NewConfig.headD ⟨"", []⟩).regexp ++ "\\n")
      ("#!/usr/bin/env sh\n" ++ "echo hi\n") = Except.ok true) :=
  ⟨by decide,
    validateScript_no_shebang_default_rule "t" "s" "echo hi\n" NewConfig resolveEnv
      (by decide) (by decide)⟩

/-- C1 (counterexample): failures are not scoped to their own rule or
invocation. With a malformed first pattern `(` followed by the default
shell rule, an all-resolving environment and a matching script, evaluation
stops at the single `Invalid regexp` Error: the second rule's linters are
never invoked (empty trace). With the default table and a search path
missing only `shellcheck`, the single `linter not found` Error stops
evaluation: the subsequent `sh -n` invocation of the same rule is never
run (empty trace). -/
theorem validateScript_failures_abort_everything :
    validateScript "t" "#!/bin/sh\necho hi\n"
        [⟨"(", []⟩,
         ⟨"(/usr/bin/env |.*/bin/)sh", [⟨"shellcheck", ["-s", "sh"]⟩, ⟨"sh", ["-n"]⟩]⟩]
        "s" resolveEnv =
      some (⟨[⟨Severity.warning, "step: t is not using #!/usr/bin/env "⟩,
              ⟨Severity.error, "Invalid regexp: ("⟩]⟩, []) ∧
    validateScript "t" "#!/bin/sh\necho hi\n" NewConfig "s" noShellcheckEnv =
      some (⟨[⟨Severity.warning, "step: t is not using #!/usr/bin/env "⟩,
              ⟨Severity.error, "Couldn't find the linter shellcheck in the path"⟩]⟩,
        []) := by
  constructor
  · decide
  · decide

/-- C1 (amended): for every configuration table, script and environment,
a malformed interpreter pattern produces an Error naming the offending
pattern and aborts the evaluation of the entire remaining table (all
subsequent rules are skipped); an unresolvable linter command produces
exactly one `linter not found` Error and likewise aborts all remaining
linter invocations and all subsequent rules. -/
theorem runConfigs_failure_aborts_rest (tn sn script : String) (env : ExecEnv)
    (c : Config) (rest : List Config) (st : LoopState) :
    (∀ e, matchString ("^#!" ++ c.regexp ++ "\\n") script = Except.error e →
      runConfigs tn sn script env (c :: rest) st =
        ⟨st.res ++ [⟨Severity.error, "Invalid regexp: " ++ c.regexp⟩],
          st.events, st.tmpIdx⟩) ∧
    (∀ l ls, matchString ("^#!" ++ c.regexp ++ "\\n") script = Except.ok true →
      c.linters = l :: ls → env.lookPath l.cmd = none →
      runConfigs tn sn script env (c :: rest) st =
        ⟨st.res ++ [⟨Severity.error,
            "Couldn't find the linter " ++ l.cmd ++ " in the path"⟩],
          st.events, st.tmpIdx⟩) := by
  constructor
  · intro e he
    simp [runConfigs, he]
  · intro l ls hm hl hlp
    simp [runConfigs, hm, hl, runLinters, hlp]

/-- C1 (amended, witness): the amended theorem applied to a malformed
pattern `(` and to a missing `shellcheck`, at concrete inputs. -/
theorem runConfigs_failure_aborts_rest_witness :
    matchString ("^#!" ++ "(" ++ "\\n") "#!/bin/sh\necho hi\n" =
      Except.error "missing closing )" ∧
    runConfigs "t" "s" "#!/bin/sh\necho hi\n" resolveEnv
        [⟨"(", []⟩, ⟨"(/usr/bin/env |.*/bin/)sh", [⟨"sh", ["-n"]⟩]⟩] ⟨[], [], 0⟩ =
      ⟨[⟨Severity.error, "Invalid regexp: ("⟩], [], 0⟩ ∧
    runConfigs "t" "s" "#!/bin/sh\necho hi\n" noShellcheckEnv
        [⟨"(/usr/bin/env |.*/bin/)sh",
          [⟨"shellcheck", ["-s", "sh"]⟩, ⟨"sh", ["-n"]⟩]⟩] ⟨[], [], 0⟩ =
      ⟨[⟨Severity.error, "Couldn't find the linter shellcheck in the path"⟩],
        [], 0⟩ :=
  ⟨rfl,
    by
      have h := (runConfigs_failure_aborts_rest "t" "s" "#!/bin/sh\necho hi\n"
        resolveEnv ⟨"(", []⟩ [⟨"(/usr/bin/env |.*/bin/)sh", [⟨"sh", ["-n"]⟩]⟩]
        ⟨[], [], 0⟩).1 "missing closing )" rfl
      simpa using h,
    by
      have h := (runConfigs_failure_aborts_rest "t" "s" "#!/bin/sh\necho hi\n"
        noShellcheckEnv
        ⟨"(/usr/bin/env |.*/bin/)sh", [⟨"shellcheck", ["-s", "sh"]⟩, ⟨"sh", ["-n"]⟩]⟩
        [] ⟨[], [], 0⟩).2 ⟨"shellcheck", ["-s", "sh"]⟩ [⟨"sh", ["-n"]⟩]
        rfl rfl rfl
      simpa using h⟩

/-- C2 (counterexample): a step whose image is in well-formed digest form,
whose environment has a secret-backed variable and a secret-backed bulk
source, and whose script leaks `$(params.x)`, yields only the digest
warning: the secret-as-env and parameter-leakage rules are not applied —
`validateStep` returns early after the digest rule. -/
theorem validateStep_digest_skips_remaining_rules :
    (⟨"s", "host.example.com/repo@sha256:" ++ hex64, "echo $(params.x)",
        [⟨"PASS", true⟩], [⟨true⟩]⟩ : Step).env.any
      (fun e => e.valueFromSecretKeyRef) = true ∧
    (validateStep (.v1 ⟨"s", "host.example.com/repo@sha256:" ++ hex64,
        "echo $(params.x)", [⟨"PASS", true⟩], [⟨true⟩]⟩)).findings =
      [⟨Severity.warning,
        warnTagDigestMsg "s" ("host.example.com/repo@sha256:" ++ hex64)⟩] := by
  constructor
  · decide
  · decide

/-- C2 (amended): once the image is in digest form (no interpolation
variables, contains `@sha256`), `validateStep` returns immediately after
the digest rule: its result does not depend on the step's script, env or
envFrom — the secret-as-env, parameter-leakage and any later rules are
skipped for that step; this holds for both schema revisions. -/
theorem validateStep_digest_independent_of_rest (n img script : String)
    (env : List EnvVar) (envFrom : List EnvFromSource)
    (h1 : extractExpressionFromString img "" = none)
    (h2 : goContains img "@sha256" = true) :
    validateStep (.v1 ⟨n, img, script, env, envFrom⟩) =
      validateStep (.v1 ⟨n, img, "", [], []⟩) ∧
    validateStep (.v1beta1 ⟨n, img, script, env, envFrom⟩) =
      validateStep (.v1beta1 ⟨n, img, "", [], []⟩) := by
  constructor <;>
    simp only [validateStep, stepFindings, h1, h2, if_true]

/-- C2 (amended, witness): the amended theorem at a concrete digest-form
step with a secret env var and a leaky script. -/
theorem validateStep_digest_independent_witness :
    extractExpressionFromString ("host.example.com/repo@sha256:" ++ hex64) "" = none ∧
    goContains ("host.example.com/repo@sha256:" ++ hex64) "@sha256" = true ∧
    validateStep (.v1 ⟨"s", "host.example.com/repo@sha256:" ++ hex64,
        "echo $(params.x)", [⟨"PASS", true⟩], [⟨true⟩]⟩) =
      validateStep (.v1 ⟨"s", "host.example.com/repo@sha256:" ++ hex64, "", [], []⟩) :=
  ⟨by decide, by decide,
    (validateStep_digest_independent_of_rest "s"
      ("host.example.com/repo@sha256:" ++ hex64) "echo $(params.x)"
      [⟨"PASS", true⟩] [⟨true⟩] (by decide) (by decide)).1⟩

/-- C6: for every step whose image has no interpolation variables, is not
in digest form, and parses to a tag case-insensitively equal to `latest`,
`validateStep` emits an Error finding whose message ends in (hence
contains) "specific version". -/
theorem validateStep_latest_tag_error (n img script : String)
    (env : List EnvVar) (envFrom : List EnvFromSource) (tg : String)
    (h1 : extractExpressionFromString img "" = none)
    (h2 : goContains img "@sha256" = false)
    (h3 : newTag img = Except.ok tg)
    (h4 : goEqualFold tg "latest" = true) :
    (⟨Severity.error, errLatestMsg n img⟩ : Finding) ∈
      (validateStep (.v1 ⟨n, img, script, env, envFrom⟩)).findings ∧
    ∃ a, errLatestMsg n img = a ++ "specific version" := by
  constructor
  · simp only [validateStep, stepFindings, h1, h2, h3, h4, Bool.false_eq_true,
      if_false, if_true]
    simp
  · refine ⟨"Step " ++ goQuote n ++ " uses image " ++ goQuote img ++
      " which must be tagged with a ", ?_⟩
    have hsplit : (" which must be tagged with a specific version" : String) =
        " which must be tagged with a " ++ "specific version" := by decide
    rw [errLatestMsg, hsplit]
    simp [String.append_assoc]

/-- C6 (witness): the theorem at the concrete image
`host.example.com/repo:latest`. -/
theorem validateStep_latest_tag_error_witness :
    extractExpressionFromString "host.example.com/repo:latest" "" = none ∧
    goContains "host.example.com/repo:latest" "@sha256" = false ∧
    newTag "host.example.com/repo:latest" = Except.ok "latest" ∧
    ((⟨Severity.error, errLatestMsg "s" "host.example.com/repo:latest"⟩ : Finding) ∈
      (validateStep (.v1 ⟨"s", "host.example.com/repo:latest", "", [], []⟩)).findings ∧
    ∃ a, errLatestMsg "s" "host.example.com/repo:latest" = a ++ "specific version") :=
  ⟨by decide, by decide, rfl,
    validateStep_latest_tag_error "s" "host.example.com/repo:latest" "" [] []
      "latest" (by decide) (by decide) rfl (by decide)⟩

/-- C5: (a) for every image `host.example.com/repo@sha256:<64 hex>` with no
tag before the digest, `validateStep` emits exactly the Warning
recommending the `name:tag@sha256:digest` form and no Error; (b) for every
image containing `@sha256` whose digest is malformed (`NewDigest` fails),
`validateStep` emits the digest Error and performs no further tag checks —
the result is exactly the registry warning, if any, followed by that
Error. -/
theorem validateStep_digest_form_findings :
    (∀ n h64 : String, h64.data.length = 64 → h64.data.all isHexChar = true →
      (validateStep (.v1 ⟨n, "host.example.com/repo@sha256:" ++ h64, "",
          [], []⟩)).findings =
        [⟨Severity.warning,
          warnTagDigestMsg n ("host.example.com/repo@sha256:" ++ h64)⟩]) ∧
    (∀ n img e, extractExpressionFromString img "" = none →
      goContains img "@sha256" = true → newDigest img = Except.error e →
      (validateStep (.v1 ⟨n, img, "", [], []⟩)).findings =
        (if !goContains img "/" || !isValidRegistry img then
          [⟨Severity.warning, warnRegistryMsg n img⟩] else []) ++
        [⟨Severity.error, errDigestMsg n img e⟩]) := by
  constructor
  · intro n h64 hlen hhex
    have hdata : ("host.example.com/repo@sha256:" ++ h64).data =
        "host.example.com/repo@sha256:".data ++ h64.data :=
      String.data_append _ _
    have hnod : '$' ∉ ("host.example.com/repo@sha256:" ++ h64).data := by
      rw [hdata]
      intro hmem
      rcases List.mem_append.mp hmem with hm | hm
      · exact absurd hm (by decide)
      · exact absurd (List.all_eq_true.mp hhex _ hm) (by decide)
    have h1 : extractExpressionFromString
        ("host.example.com/repo@sha256:" ++ h64) "" = none :=
      extract_none_of_no_dollar _ hnod
    have h2 : goContains ("host.example.com/repo@sha256:" ++ h64) "/" = true := by
      simp only [goContains]
      rw [hdata]
      exact listContains_append_true _ (by decide)
    have h3 : isValidRegistry ("host.example.com/repo@sha256:" ++ h64) = true := by
      simp only [isValidRegistry]
      rw [hdata]
      have hc : listContains ['/'] "host.example.com/repo@sha256:".data = true := by
        decide
      rw [splitHead_append h64.data hc]
      decide
    have h4 : goContains ("host.example.com/repo@sha256:" ++ h64) "@sha256" = true := by
      simp only [goContains]
      rw [hdata]
      exact listContains_append_true _ (by decide)
    have hdrop : (("sha256:".data ++ h64.data).drop 7) = h64.data := by
      have h7 : (7 : Nat) = "sha256:".data.length := by decide
      rw [h7, List.drop_left]
    have h5 : newDigest ("host.example.com/repo@sha256:" ++ h64) =
        Except.ok ("host.example.com/repo@sha256:" ++ h64) := by
      have hso : splitOnce ['@'] "host.example.com/repo@sha256:".data =
          some ("host.example.com/repo".data, "sha256:".data) := by decide
      simp only [newDigest, hdata, splitOnce_append h64.data hso]
      rw [if_pos ?_]
      refine ⟨isPrefixOf_self_app _ _, ?_, ?_, by decide⟩
      · rw [hdrop]; exact hlen
      · rw [hdrop]; exact hhex
    have h6 : tagWithDigest ("host.example.com/repo@sha256:" ++ h64) = false := by
      simp only [tagWithDigest]
      rw [hdata]
      have hc : listContains "@sha256".data
          "host.example.com/repo@sha256:".data = true := by decide
      rw [splitHead_append h64.data hc]
      decide
    simp only [validateStep, stepFindings, h1, h2, h3, h4, h5, h6, if_true]
    simp
  · intro n img e h1 h2 h3
    simp only [validateStep, stepFindings, h1, h2, h3, if_true]

/-- C5 (witness): part (a) at the digest body of 64 `a`s and part (b) at
the malformed digest `host.example.com/repo@sha256:zz`. -/
theorem validateStep_digest_form_findings_witness :
    (hex64.data.length = 64 ∧ hex64.data.all isHexChar = true ∧
      (validateStep (.v1 ⟨"s", "host.example.com/repo@sha256:" ++ hex64, "",
          [], []⟩)).findings =
        [⟨Severity.warning,
          warnTagDigestMsg "s" ("host.example.com/repo@sha256:" ++ hex64)⟩]) ∧
    (extractExpressionFromString "host.example.com/repo@sha256:zz" "" = none ∧
      goContains "host.example.com/repo@sha256:zz" "@sha256" = true ∧
      (validateStep (.v1 ⟨"s", "host.example.com/repo@sha256:zz", "",
          [], []⟩)).findings =
        (if !goContains "host.example.com/repo@sha256:zz" "/" ||
            !isValidRegistry "host.example.com/repo@sha256:zz" then
          [⟨Severity.warning,
            warnRegistryMsg "s" "host.example.com/repo@sha256:zz"⟩] else []) ++
        [⟨Severity.error, errDigestMsg "s" "host.example.com/repo@sha256:zz"
          ("could not parse reference: host.example.com/repo@sha256:zz")⟩]) :=
  ⟨⟨by decide, by decide,
    validateStep_digest_form_findings.1 "s" hex64 (by decide) (by decide)⟩,
   ⟨by decide, by decide,
    validateStep_digest_form_findings.2 "s" "host.example.com/repo@sha256:zz"
      "could not parse reference: host.example.com/repo@sha256:zz"
      (by decide) (by decide) rfl⟩⟩

/-- C10: the tag-alongside-digest check accepts any colon before the
digest: whenever the image is in digest form and the portion before
`@sha256` contains a `:` and does not end in `:latest`, `validateStep`
emits no tag-plus-digest Warning — its findings are exactly the registry
warning, if any. -/
theorem validateStep_digest_colon_no_warning (n img : String)
    (h1 : extractExpressionFromString img "" = none)
    (h2 : goContains img "@sha256" = true)
    (h3 : newDigest img = Except.ok img)
    (h4 : goContains ⟨splitHead "@sha256".data img.data⟩ ":" = true)
    (h5 : goHasSuffix ⟨splitHead "@sha256".data img.data⟩ ":latest" = false) :
    (validateStep (.v1 ⟨n, img, "", [], []⟩)).findings =
      (if !goContains img "/" || !isValidRegistry img then
        [⟨Severity.warning, warnRegistryMsg n img⟩] else []) := by
  have htag : tagWithDigest img = true := by
    simp [tagWithDigest, h4, h5]
  simp only [validateStep, stepFindings, h1, h2, h3, htag, if_true]
  simp

/-- C10 (witness): the theorem at the tagless reference whose registry
carries a port, `host.example.com:5000/repo@sha256:<64 hex>`; its colon
satisfies the check, so no Warning (and no finding at all) is emitted. -/
theorem validateStep_digest_colon_no_warning_witness :
    extractExpressionFromString
      ("host.example.com:5000/repo@sha256:" ++ hex64) "" = none ∧
    goContains ("host.example.com:5000/repo@sha256:" ++ hex64) "@sha256" = true ∧
    newDigest ("host.example.com:5000/repo@sha256:" ++ hex64) =
      Except.ok ("host.example.com:5000/repo@sha256:" ++ hex64) ∧
    goContains
      ⟨splitHead "@sha256".data ("host.example.com:5000/repo@sha256:" ++ hex64).data⟩
      ":" = true ∧
    goHasSuffix
      ⟨splitHead "@sha256".data ("host.example.com:5000/repo@sha256:" ++ hex64).data⟩
      ":latest" = false ∧
    (validateStep (.v1 ⟨"s", "host.example.com:5000/repo@sha256:" ++ hex64, "",
        [], []⟩)).findings =
      (if !goContains ("host.example.com:5000/repo@sha256:" ++ hex64) "/" ||
          !isValidRegistry ("host.example.com:5000/repo@sha256:" ++ hex64) then
        [⟨Severity.warning,
          warnRegistryMsg "s" ("host.example.com:5000/repo@sha256:" ++ hex64)⟩]
      else []) :=
  ⟨by decide, by decide, rfl, by decide, by decide,
    validateStep_digest_colon_no_warning "s"
      ("host.example.com:5000/repo@sha256:" ++ hex64)
      (by decide) (by decide) rfl (by decide) (by decide)⟩

/-- C7: when every configured pattern compiles and every configured linter
command resolves (and temporary-file operations succeed), the rule loop
invokes the linters of every matching rule — the invocation sequence is
exactly the concatenation, in table declaration order, of each matching
rule's linters in listed order; the table is not first-match-wins. -/
theorem runConfigs_all_matching_rules (tn sn scr : String) (env : ExecEnv)
    (configs : List Config) (st : LoopState)
    (hm : ∀ c ∈ configs, ∃ b,
      matchString ("^#!" ++ c.regexp ++ "\\n") scr = Except.ok b)
    (hlp : ∀ c ∈ configs, ∀ l ∈ c.linters, (env.lookPath l.cmd).isSome = true)
    (hct : ∀ i, (env.createTemp i).isSome = true)
    (hw : ∀ i, env.writeOk i = true) (hcl : ∀ i, env.closeOk i = true) :
    invocationsOf (runConfigs tn sn scr env configs st).events =
      invocationsOf st.events ++ configs.flatMap (matchedLinters scr env) := by
  induction configs generalizing st with
  | nil => simp [runConfigs]
  | cons c rest ih =>
    obtain ⟨b, hb⟩ := hm c (List.mem_cons_self c rest)
    cases b with
    | false =>
      simp only [runConfigs, hb]
      rw [ih st (fun x hx => hm x (List.mem_cons_of_mem c hx))
        (fun x hx => hlp x (List.mem_cons_of_mem c hx))]
      simp [matchedLinters, hb]
    | true =>
      simp only [runConfigs, hb]
      obtain ⟨st2, h2, hinv⟩ := runLinters_all_success tn sn scr env hct hw hcl
        c.linters st (hlp c (List.mem_cons_self c rest))
      rw [h2]
      rw [ih st2 (fun x hx => hm x (List.mem_cons_of_mem c hx))
        (fun x hx => hlp x (List.mem_cons_of_mem c hx))]
      rw [hinv]
      simp [matchedLinters, hb]

/-- C7 (witness): a table of two rules both matching `#!/bin/sh\necho hi\n`
in an all-resolving environment: linters of both rules run, in table
order, each rule's linters in listed order. -/
theorem runConfigs_all_matching_rules_witness :
    (∀ c ∈ ([⟨"(/usr/bin/env |.*/bin/)sh",
          [⟨"shellcheck", ["-s", "sh"]⟩, ⟨"sh", ["-n"]⟩]⟩,
        ⟨".*/bin/sh", [⟨"dash", []⟩]⟩] : List Config), ∃ b,
      matchString ("^#!" ++ c.regexp ++ "\\n") "#!/bin/sh\necho hi\n" =
        Except.ok b) ∧
    (∀ i, (resolveEnv.createTemp i).isSome = true) ∧
    invocationsOf (runConfigs "t" "s" "#!/bin/sh\necho hi\n" resolveEnv
        [⟨"(/usr/bin/env |.*/bin/)sh",
          [⟨"shellcheck", ["-s", "sh"]⟩, ⟨"sh", ["-n"]⟩]⟩,
         ⟨".*/bin/sh", [⟨"dash", []⟩]⟩] ⟨[], [], 0⟩).events =
      [("/bin/shellcheck", ["-s", "sh"]), ("/bin/sh", ["-n"]),
        ("/bin/dash", [])] := by
  refine ⟨?_, fun i => rfl, ?_⟩
  · intro c hc
    fin_cases hc
    · exact ⟨true, rfl⟩
    · exact ⟨true, rfl⟩
  · have h := runConfigs_all_matching_rules "t" "s" "#!/bin/sh\necho hi\n"
      resolveEnv
      [⟨"(/usr/bin/env |.*/bin/)sh",
        [⟨"shellcheck", ["-s", "sh"]⟩, ⟨"sh", ["-n"]⟩]⟩,
       ⟨".*/bin/sh", [⟨"dash", []⟩]⟩] ⟨[], [], 0⟩
      (by intro c hc; fin_cases hc
          · exact ⟨true, rfl⟩
          · exact ⟨true, rfl⟩)
      (by intro c hc; fin_cases hc <;> intro l hl <;> fin_cases hl <;> rfl)
      (fun i => rfl) (fun i => rfl) (fun i => rfl)
    exact h.trans (by decide)

/-- C9: when a script with no shebang (and length at least 2, so that
shebang detection does not panic) is validated, the text of every
temporary-file write handed to an external linter is exactly the
synthesized shebang line followed by the caller's original script text —
the synthesized line is persisted into the linted content. -/
theorem validateScript_writes_synthesized (tn sn script : String)
    (configs : List Config) (env : ExecEnv) (r : Result) (evs : List Event)
    (f c : String)
    (h2 : 2 ≤ script.data.length)
    (hs : (⟨script.data.take 2⟩ : String) ≠ "#!")
    (hv : validateScript tn script configs sn env = some (r, evs))
    (hw : Event.write f c ∈ evs) :
    c = "#!/usr/bin/env sh\n" ++ script := by
  simp only [validateScript] at hv
  rw [if_neg (by omega), if_pos hs] at hv
  have hevs : evs =
      (runConfigs tn sn ("#!/usr/bin/env sh\n" ++ script) env configs
        ⟨[], [], 0⟩).events := by
    have := (Option.some.injEq _ _).mp hv
    exact (congrArg Prod.snd this).symm
  rw [hevs] at hw
  rcases runConfigs_write_content tn sn ("#!/usr/bin/env sh\n" ++ script) env
    configs ⟨[], [], 0⟩ f c hw with h | h
  · exact absurd h (by simp)
  · exact h

/-- C9 (witness): the theorem at the concrete script `echo hi\n` with the
default table: the content written to `tmp0` is the synthesized shebang
followed by the original script. -/
theorem validateScript_writes_synthesized_witness :
    2 ≤ ("echo hi\n" : String).data.length ∧
    (⟨("echo hi\n" : String).data.take 2⟩ : String) ≠ "#!" ∧
    validateScript "t" "echo hi\n" NewConfig "s" resolveEnv =
      some (⟨[]⟩,
        [Event.write "tmp0" "#!/usr/bin/env sh\necho hi\n",
         Event.invoke "/bin/shellcheck" ["-s", "sh"] "tmp0",
         Event.write "tmp1" "#!/usr/bin/env sh\necho hi\n",
         Event.invoke "/bin/sh" ["-n"] "tmp1"]) ∧
    Event.write "tmp0" "#!/usr/bin/env sh\necho hi\n" ∈
      [Event.write "tmp0" "#!/usr/bin/env sh\necho hi\n",
       Event.invoke "/bin/shellcheck" ["-s", "sh"] "tmp0",
       Event.write "tmp1" "#!/usr/bin/env sh\necho hi\n",
       Event.invoke "/bin/sh" ["-n"] "tmp1"] ∧
    ("#!/usr/bin/env sh\necho hi\n" : String) =
      "#!/usr/bin/env sh\n" ++ "echo hi\n" :=
  ⟨by decide, by decide, by decide, by decide,
    validateScript_writes_synthesized "t" "s" "echo hi\n" NewConfig resolveEnv
      ⟨[]⟩
      [Event.write "tmp0" "#!/usr/bin/env sh\necho hi\n",
       Event.invoke "/bin/shellcheck" ["-s", "sh"] "tmp0",
       Event.write "tmp1" "#!/usr/bin/env sh\necho hi\n",
       Event.invoke "/bin/sh" ["-n"] "tmp1"]
      "tmp0" "#!/usr/bin/env sh\necho hi\n"
      (by decide) (by decide) (by decide) (by decide)⟩

end Catlin




